import Mathlib

/-!
Verification of `subdomain_discovery.py` (async subdomain discovery via DNS
and crt.sh).  The Python source is shallowly embedded: each network-facing
operation is parameterised by an explicit outcome/environment value, string
manipulation uses character-list models of the Python `str` methods that the
script calls (`strip`, `lower`, `rstrip('.')`, `startswith`, `endswith`,
`splitlines`), and result sets are `Finset String` mirroring Python `set`.
-/

namespace SubdomainDiscovery

/-! ### Python string primitives

Each definition models the corresponding Python `str` method as used by the
script on domain-name data (the script's inputs are ASCII hostnames; the
embedding of `lower` uses the basic-latin case map, exactly `Char.toLower`). -/

/-- Model of Python `s.lower()` (basic-latin case map, per character). -/
def pyLower (s : String) : String := ⟨s.data.map Char.toLower⟩

/-- Model of Python `s.strip()`: drop leading and trailing whitespace. -/
def pyStrip (s : String) : String :=
  ⟨((s.data.dropWhile Char.isWhitespace).reverse.dropWhile Char.isWhitespace).reverse⟩

/-- Model of Python `s.rstrip(c)` for a single character `c`: drop every
trailing occurrence of `c`. -/
def pyRstripChar (s : String) (c : Char) : String :=
  ⟨(s.data.reverse.dropWhile (· = c)).reverse⟩

/-- Model of Python `s.startswith(pre)`. -/
def pyStartsWith (s pre : String) : Bool := pre.data.isPrefixOf s.data

/-- Model of Python `s.endswith(suf)`. -/
def pyEndsWith (s suf : String) : Bool := suf.data.isSuffixOf s.data

/-- Model of Python `s[n:]`: drop the first `n` characters. -/
def pyDrop (s : String) (n : Nat) : String := ⟨s.data.drop n⟩

/-- Helper for `pySplitLines`: scan the character list, cutting at `'\n'`;
`acc` holds the current line reversed.  A trailing fragment is emitted only
when non-empty, matching Python `splitlines` (no trailing empty line). -/
def splitLinesAux : List Char → List Char → List (List Char)
  | [], acc => if acc.isEmpty then [] else [acc.reverse]
  | c :: cs, acc =>
    if c = '\n' then acc.reverse :: splitLinesAux cs []
    else splitLinesAux cs (c :: acc)

/-- Model of Python `s.splitlines()` (with `'\n'` as the line separator, the
only separator occurring in the script's data). -/
def pySplitLines (s : String) : List String :=
  (splitLinesAux s.data []).map fun l => ⟨l⟩

/-! ### Certificate-log retriever (`get_subdomains_from_crtsh`)

One JSON entry of the crt.sh response; the script reads only the
`name_value` field (`entry.get('name_value', '')`, line 206). -/

structure CrtEntry where
  name_value : String

/-- Name normalisation of the crt.sh path, lines 208-210:
`clean_name = name.strip().lower()`, then strip one leading `"*."`. -/
def cleanName (s : String) : String :=
  let c := pyLower (pyStrip s)
  if pyStartsWith c "*." then pyDrop c 2 else c

/-- Acceptance test of the crt.sh path, line 212:
`clean_name and clean_name.endswith(f".{domain.lower()}") and clean_name != domain.lower()`. -/
def keepName (dom c : String) : Bool :=
  c != "" && pyEndsWith c ("." ++ pyLower dom) && c != pyLower dom

/-- Lines 204-215: split every entry's `name_value` on newlines, normalise
each candidate with `cleanName`, keep those passing `keepName`, and collect
into a set. -/
def processEntries (dom : String) (entries : List CrtEntry) : Finset String :=
  (((entries.map fun e => pySplitLines e.name_value).flatten.map cleanName).filter
    fun c => keepName dom c).toFinset

/-- Body classification of an HTTP 200 response, lines 195-226: empty text
(line 196), JSON decode failure (line 219), parsed-but-falsy data
(line 200), or a parsed entry array. -/
inductive CrtBody where
  | emptyText
  | malformedJson
  | emptyJson
  | entries (es : List CrtEntry)

/-- Outcome of one HTTP attempt: a 200 with a classified body, a non-200
status, a timeout (line 247), or a client/connection error (line 256). -/
inductive CrtOutcome where
  | ok (body : CrtBody)
  | status (code : Nat)
  | timeout
  | connError

/-- Line 235: the statuses the script retries with backoff. -/
def retryableStatus (code : Nat) : Bool :=
  code = 500 || code = 502 || code = 503 || code = 504 || code = 429

/-- Line 185: `initial_delay = 2`. -/
def initialDelay : Nat := 2

/-- Observable outcome of one `get_subdomains_from_crtsh` call: the returned
set, how many HTTP requests were issued, and the backoff sleeps performed
(in order, in time-units). -/
structure CrtRun where
  result : Finset String
  attempts : Nat
  delays : List Nat
deriving DecidableEq

/-- Retry loop of `get_subdomains_from_crtsh`, lines 189-267 (the loop is
`for attempt in range(max_retries)`).  The recursion runs on the number of
loop iterations still available after the current one (`remaining`, so that
`max_retries = attempt + remaining + 1` inside the body); the source's
last-attempt guard `attempt >= max_retries - 1` is exactly `remaining = 0`
and `attempt < max_retries - 1` is exactly `remaining ≠ 0`.
Branches mirror the source: empty text / falsy JSON break with the empty
set (lines 196-202); a decode error breaks only on the last attempt and
otherwise loops again with no sleep (lines 219-226); a parsed entry array
returns immediately (line 217); a retryable status, timeout or connection
error sleeps `initial_delay * 2 ** attempt` and loops unless on the last
attempt (lines 232-264); any other status breaks at once (lines 243-245). -/
def crtshGo (dom : String) (resp : Nat → CrtOutcome) : Nat → Nat → CrtRun
  | 0, attempt => ⟨∅, attempt, []⟩
  | remaining + 1, attempt =>
    match resp attempt with
    | .ok .emptyText => ⟨∅, attempt + 1, []⟩
    | .ok .malformedJson =>
      if remaining = 0 then ⟨∅, attempt + 1, []⟩
      else crtshGo dom resp remaining (attempt + 1)
    | .ok .emptyJson => ⟨∅, attempt + 1, []⟩
    | .ok (.entries es) => ⟨processEntries dom es, attempt + 1, []⟩
    | .status code =>
      if retryableStatus code then
        if remaining = 0 then ⟨∅, attempt + 1, []⟩
        else
          let r := crtshGo dom resp remaining (attempt + 1)
          ⟨r.result, r.attempts, initialDelay * 2 ^ attempt :: r.delays⟩
      else ⟨∅, attempt + 1, []⟩
    | .timeout =>
      if remaining = 0 then ⟨∅, attempt + 1, []⟩
      else
        let r := crtshGo dom resp remaining (attempt + 1)
        ⟨r.result, r.attempts, initialDelay * 2 ^ attempt :: r.delays⟩
    | .connError =>
      if remaining = 0 then ⟨∅, attempt + 1, []⟩
      else
        let r := crtshGo dom resp remaining (attempt + 1)
        ⟨r.result, r.attempts, initialDelay * 2 ^ attempt :: r.delays⟩

/-- One full `get_subdomains_from_crtsh` call (loop started at attempt 0). -/
def crtshRun (dom : String) (resp : Nat → CrtOutcome) (maxRetries : Nat) : CrtRun :=
  crtshGo dom resp maxRetries 0

/-! ### Zone-transfer prober (`attempt_axfr`) and DNS pipeline -/

/-- Outcome of the zone-transfer call for one nameserver: the reconstructed
full node names (each the raw `name.to_text(origin=...)` output, line 152),
or one of the three caught failure classes (lines 163-172). -/
inductive AxfrOutcome where
  | success (names : List String)
  | formError
  | timeout
  | transportError

/-- Lines 147-172 of `attempt_axfr`: on success, each node name is
`rstrip('.')`-ed (line 152) and kept when it ends with `f".{domain}"` and
differs from the domain (line 154, no lowercasing); every caught failure
returns the empty set instead of propagating. -/
def attemptAxfr (dom : String) (o : AxfrOutcome) : Finset String :=
  match o with
  | .success names =>
    ((names.map fun n => pyRstripChar n '.').filter
      fun full => pyEndsWith full ("." ++ dom) && full != dom).toFinset
  | .formError => ∅
  | .timeout => ∅
  | .transportError => ∅

/-- Lines 82-92: union of the per-nameserver AXFR sets gathered by
`asyncio.gather` (`subdomains.update(result)` for each non-empty set — the
fold below is the same union since empty sets add nothing). -/
def mergeAxfr (l : List (Finset String)) : Finset String := l.foldl (· ∪ ·) ∅

/-- Network operations the DNS pipeline can perform, in order. -/
inductive DnsStep where
  | nsLookup
  | axfrProbe (ns : String)
  | txtWildcardCheck
  | mxLookup
deriving DecidableEq

/-- Environment for one `get_subdomains_from_dns` run: the NS answer
(`none` models any of the caught resolution failures, lines 60-68), the
per-nameserver AXFR outcome, and the MX answer (`none` models the caught
timeout/error, lines 128-131; TXT wildcard outcomes are logging-only and
carry no data, lines 101-112). -/
structure DnsEnv where
  nsResponse : Option (List String)
  axfrOutcome : String → AxfrOutcome
  mxResponse : Option (List String)

/-- Line 70: `ns_servers = [str(ns.target).rstrip('.') for ns in ns_records]`. -/
def nsNormalize (raw : List String) : List String := raw.map fun s => pyRstripChar s '.'

/-- Lines 118-122: `host = str(mx.exchange).rstrip('.').lower()`, kept when
`host.endswith(f".{domain.lower()}")`. -/
def mxHosts (dom : String) (exchanges : List String) : Finset String :=
  ((exchanges.map fun s => pyLower (pyRstripChar s '.')).filter
    fun host => pyEndsWith host ("." ++ pyLower dom)).toFinset

/-- Whole `get_subdomains_from_dns` control flow, lines 42-133, returning
the result set and the trace of network steps performed: NS failure is a
hard stop (lines 60-68); otherwise AXFR fans out over every normalised
nameserver and the results merge; the TXT-wildcard check and MX fallback
run only when the merged AXFR set is empty (line 95 `if not subdomains:`),
with the TXT check contributing nothing to the set. -/
def runDnsPipeline (dom : String) (env : DnsEnv) : Finset String × List DnsStep :=
  match env.nsResponse with
  | none => (∅, [DnsStep.nsLookup])
  | some raw =>
    let servers := nsNormalize raw
    let merged := mergeAxfr (servers.map fun ns => attemptAxfr dom (env.axfrOutcome ns))
    let steps := DnsStep.nsLookup :: servers.map DnsStep.axfrProbe
    if merged = ∅ then
      let mxSet := match env.mxResponse with
        | none => (∅ : Finset String)
        | some ex => mxHosts dom ex
      (mxSet, steps ++ [DnsStep.txtWildcardCheck, DnsStep.mxLookup])
    else
      (merged, steps)

/-! ### Orchestrator and output (`main`, `__main__`) -/

/-- Lexicographic (code-point) order on strings, the order Python `sorted`
uses on `str`; stated on the underlying character lists. -/
def lexLe (s t : String) : Prop := s.data ≤ t.data

/-- Strict lexicographic (code-point) order on strings. -/
def lexLt (s t : String) : Prop := s.data < t.data

instance : DecidableRel lexLe := fun s t => inferInstanceAs (Decidable (s.data ≤ t.data))

instance : DecidableRel lexLt := fun s t => inferInstanceAs (Decidable (s.data < t.data))

instance : IsTotal String lexLe := ⟨fun s t => le_total s.data t.data⟩

instance : IsTrans String lexLe := ⟨fun _ _ _ h h2 => le_trans h h2⟩

instance : IsAntisymm String lexLe :=
  ⟨fun s t h h2 => by cases s; cases t; exact congrArg String.mk (le_antisymm h h2)⟩

/-- Model of Python `sorted(...)` on a set of strings: the elements of the
set listed in ascending lexicographic order (well-defined on the multiset
quotient since a sorted permutation is unique). -/
def sortedList (s : Finset String) : List String :=
  Quot.liftOn s.val (fun l => l.insertionSort lexLe) fun _ _ h =>
    List.eq_of_perm_of_sorted
      ((List.perm_insertionSort _ _).trans (h.trans (List.perm_insertionSort _ _).symm))
      (List.sorted_insertionSort _ _) (List.sorted_insertionSort _ _)

/-- Line 308: `all_subdomains = sorted(dns_subs.union(crtsh_subs))` — the
deduplicated union, listed in ascending lexicographic order. -/
def mergedSorted (dnsSet crtSet : Finset String) : List String :=
  sortedList (dnsSet ∪ crtSet)

/-- Line 320: the placeholder written when nothing was found. -/
def placeholderLine : String := "# No subdomains found."

/-- Lines 318-322: the byte content written to the output file — the
placeholder line if the sorted list is empty, else `f"{sub}\n"` for each
subdomain in order. -/
def fileContent (allSubs : List String) : String :=
  if allSubs.isEmpty then ⟨placeholderLine.data ++ ['\n']⟩
  else ⟨(allSubs.map fun sub => sub.data ++ ['\n']).flatten⟩

/-- Lines of the output file (its content split at newlines). -/
def fileLines (allSubs : List String) : List String :=
  pySplitLines (fileContent allSubs)

/-- Exceptions distinguished by the `__main__` handlers, lines 337-355. -/
inductive PyExc where
  | keyboardInterrupt
  | runtimeError
  | otherError
deriving DecidableEq

/-- Whether the output-write step (lines 313-322) raises. -/
def writeStepRaised (writeFails : Bool) : Option PyExc :=
  if writeFails then some PyExc.otherError else none

/-- Lines 312-325 of `main`: the write is wrapped in
`try: ... except Exception as e: print(f"[!] Error writing to file ...")` —
the handler prints a diagnostic and swallows the exception, so `main`
finishes normally either way.  Returns (exception escaping `main`,
diagnostics printed by this block). -/
def mainOutputStep (writeFails : Bool) : Option PyExc × List String :=
  match writeStepRaised writeFails with
  | none => (none, ["[*] Results saved"])
  | some _ => (none, ["[!] Error writing to file"])

/-- Lines 337-355 of `__main__`: `KeyboardInterrupt` exits 0 via
`sys.exit(0)`; `RuntimeError` and any other exception exit 1 via
`sys.exit(1)`; normal completion falls through and exits 0. -/
def scriptExitCode (mainRaised : Option PyExc) : Nat :=
  match mainRaised with
  | none => 0
  | some PyExc.keyboardInterrupt => 0
  | some PyExc.runtimeError => 1
  | some PyExc.otherError => 1

/-- Exit code of a run in which the output-write step raises iff
`writeFails`. -/
def runScriptExitCode (writeFails : Bool) : Nat :=
  scriptExitCode (mainOutputStep writeFails).1

/-- Modelled from the spec (section 4.4 / claim C8): the attempt outcomes
after which, according to the specification, the retriever may retry —
HTTP 500/502/503/504/429, transport timeout, or connection error.  Used
only to state the claim being checked against `crtshGo`. -/
def specRetryableOutcome (o : CrtOutcome) : Bool :=
  match o with
  | .status code => retryableStatus code
  | .timeout => true
  | .connError => true
  | .ok _ => false

/-! ### Helper lemmas -/

theorem char_toNat_ofNat_valid (n : Nat) (h : n.isValidChar) : (Char.ofNat n).toNat = n := by
  rw [Char.ofNat, dif_pos h]
  simp [Char.ofNatAux, Char.toNat, UInt32.toNat, BitVec.toNat_ofNatLt]

theorem char_isUpper_imp {c : Char} (h : c.isUpper = true) : 65 ≤ c.toNat ∧ c.toNat ≤ 90 := by
  simp only [Char.isUpper, Bool.and_eq_true, decide_eq_true_eq] at h
  exact ⟨UInt32.le_toNat_of_le (by decide) h.1, UInt32.toNat_le_of_le (by decide) h.2⟩

theorem char_toLower_not_upper (c : Char) : (Char.toLower c).isUpper = false := by
  unfold Char.toLower
  by_cases h : c.toNat ≥ 65 ∧ c.toNat ≤ 90
  · simp only [if_pos h]
    by_contra hb
    rw [Bool.not_eq_false] at hb
    have h2 := (char_isUpper_imp hb).2
    rw [char_toNat_ofNat_valid _ (Or.inl (by omega))] at h2
    omega
  · simp only [if_neg h]
    by_contra hb
    rw [Bool.not_eq_false] at hb
    exact h ⟨(char_isUpper_imp hb).1, (char_isUpper_imp hb).2⟩

theorem char_toLower_eq_dot {c : Char} (h : Char.toLower c = '.') : c = '.' := by
  unfold Char.toLower at h
  by_cases hr : c.toNat ≥ 65 ∧ c.toNat ≤ 90
  · rw [if_pos hr] at h
    have := congrArg Char.toNat h
    rw [char_toNat_ofNat_valid _ (Or.inl (by omega))] at this
    have hd : ('.' : Char).toNat = 46 := by decide
    omega
  · rwa [if_neg hr] at h

theorem sortedList_sorted (s : Finset String) : (sortedList s).Sorted lexLe := by
  rcases s with ⟨m, nd⟩
  induction m using Quot.inductionOn with
  | h l => exact List.sorted_insertionSort _ _

theorem sortedList_coe (s : Finset String) : (sortedList s : Multiset String) = s.val := by
  rcases s with ⟨m, nd⟩
  induction m using Quot.inductionOn with
  | h l => exact Multiset.coe_eq_coe.mpr (List.perm_insertionSort _ _)

theorem mem_sortedList (s : Finset String) (x : String) : x ∈ sortedList s ↔ x ∈ s := by
  rw [← Multiset.mem_coe, sortedList_coe]
  exact Iff.rfl

theorem length_sortedList (s : Finset String) : (sortedList s).length = s.card := by
  have h := congrArg Multiset.card (sortedList_coe s)
  rwa [Multiset.coe_card] at h

theorem nodup_sortedList (s : Finset String) : (sortedList s).Nodup := by
  have hnd := s.nodup
  rw [← Multiset.coe_nodup, sortedList_coe]
  exact hnd

theorem sortedList_eq_nil_iff (s : Finset String) : sortedList s = [] ↔ s = ∅ := by
  constructor
  · intro h
    have := length_sortedList s
    rw [h] at this
    exact Finset.card_eq_zero.mp this.symm
  · intro h
    subst h
    have hl := length_sortedList (∅ : Finset String)
    simpa [List.length_eq_zero] using hl

theorem subset_foldl_union_init (l : List (Finset String)) (S init : Finset String)
    (h : S ⊆ init) : S ⊆ l.foldl (· ∪ ·) init := by
  induction l generalizing init with
  | nil => exact h
  | cons T rest ih => exact ih _ (h.trans Finset.subset_union_left)

theorem subset_foldl_union_of_mem (l : List (Finset String)) (S : Finset String)
    (h : S ∈ l) : ∀ init, S ⊆ l.foldl (· ∪ ·) init := by
  induction l with
  | nil => cases h
  | cons T rest ih =>
    intro init
    rcases List.mem_cons.mp h with rfl | hmem
    · exact subset_foldl_union_init rest S (init ∪ S) Finset.subset_union_right
    · exact ih hmem _

theorem mergeAxfr_subset {l : List (Finset String)} {S : Finset String} (h : S ∈ l) :
    S ⊆ mergeAxfr l :=
  subset_foldl_union_of_mem l S h ∅

theorem string_append_data (s t : String) : (s ++ t).data = s.data ++ t.data :=
  String.data_append s t

theorem pyEndsWith_iff {s suf : String} : pyEndsWith s suf = true ↔ suf.data <:+ s.data := by
  unfold pyEndsWith
  exact List.isSuffixOf_iff_suffix

theorem pyEndsWith_ne {x d : String} (h : pyEndsWith x ("." ++ d) = true) : x ≠ d := by
  intro hEq
  subst hEq
  rcases pyEndsWith_iff.mp h with ⟨t, ht⟩
  have hlen := congrArg List.length ht
  rw [string_append_data] at hlen
  simp at hlen
  omega

theorem pyEndsWith_ne_empty {x suf : String} (h : pyEndsWith x suf = true)
    (hsuf : suf.data ≠ []) : x.data ≠ [] := by
  rcases pyEndsWith_iff.mp h with ⟨t, ht⟩
  intro hx
  rw [hx] at ht
  rcases List.append_eq_nil.mp ht with ⟨-, h2⟩
  exact hsuf h2

theorem pyEndsWith_getLast {x suf : String} (h : pyEndsWith x suf = true)
    (hsuf : suf.data ≠ []) : x.data.getLast? = suf.data.getLast? := by
  rcases pyEndsWith_iff.mp h with ⟨t, ht⟩
  rw [← ht, List.getLast?_append_of_ne_nil _ hsuf]

theorem pyRstripChar_getLast (s : String) (c : Char) :
    (pyRstripChar s c).data.getLast? ≠ some c := by
  unfold pyRstripChar
  simp only [List.getLast?_reverse]
  intro h
  have := List.head?_dropWhile_not (· = c) s.data.reverse
  rw [h] at this
  simp at this

theorem pyLower_data (s : String) : (pyLower s).data = s.data.map Char.toLower := rfl

theorem pyLower_not_upper {s : String} {c : Char} (h : c ∈ (pyLower s).data) :
    c.isUpper = false := by
  rw [pyLower_data] at h
  rcases List.mem_map.mp h with ⟨d, -, rfl⟩
  exact char_toLower_not_upper d

theorem pyLower_getLast_ne_dot {s : String} (h : s.data.getLast? ≠ some '.') :
    (pyLower s).data.getLast? ≠ some '.' := by
  rw [pyLower_data, List.getLast?_map]
  intro hcon
  rcases Option.map_eq_some'.mp hcon with ⟨d, hd, hlow⟩
  exact h (by rw [hd, char_toLower_eq_dot hlow])



theorem crtshGo_bounds (dom : String) (resp : Nat → CrtOutcome) :
    ∀ remaining attempt,
      attempt ≤ (crtshGo dom resp remaining attempt).attempts ∧
      (crtshGo dom resp remaining attempt).attempts ≤ attempt + remaining ∧
      (remaining ≠ 0 → attempt + 1 ≤ (crtshGo dom resp remaining attempt).attempts) := by
  intro remaining
  induction remaining with
  | zero => intro attempt; simp [crtshGo]
  | succ k ih =>
    intro attempt
    have hk1 := ih (attempt + 1)
    simp only [crtshGo]
    rcases resp attempt with b | code | - | -
    case ok =>
      rcases b with - | - | - | es
      · refine ⟨?_, ?_, fun _ => ?_⟩ <;> (try dsimp only) <;> omega
      · by_cases hk : k = 0
        · simp [hk]
        · simp only [if_neg hk]
          omega
      · refine ⟨?_, ?_, fun _ => ?_⟩ <;> (try dsimp only) <;> omega
      · refine ⟨?_, ?_, fun _ => ?_⟩ <;> (try dsimp only) <;> omega
    case status =>
      by_cases hr : retryableStatus code
      · by_cases hk : k = 0
        · simp [hr, hk]
        · simp only [if_pos hr, if_neg hk]
          refine ⟨?_, ?_, fun _ => ?_⟩ <;> (try dsimp only) <;> omega
      · simp only [if_neg hr]
        refine ⟨?_, ?_, fun _ => ?_⟩ <;> (try dsimp only) <;> omega
    case timeout =>
      by_cases hk : k = 0
      · simp [hk]
      · simp only [if_neg hk]
        refine ⟨?_, ?_, fun _ => ?_⟩ <;> (try dsimp only) <;> omega
    case connError =>
      by_cases hk : k = 0
      · simp [hk]
      · simp only [if_neg hk]
        refine ⟨?_, ?_, fun _ => ?_⟩ <;> (try dsimp only) <;> omega

theorem crtshGo_continue (dom : String) (resp : Nat → CrtOutcome) :
    ∀ remaining attempt i, attempt ≤ i →
      i + 1 < (crtshGo dom resp remaining attempt).attempts →
      resp i = .ok .malformedJson ∨ specRetryableOutcome (resp i) = true := by
  intro remaining
  induction remaining with
  | zero =>
    intro attempt i hle h
    simp only [crtshGo] at h
    omega
  | succ k ih =>
    intro attempt i hle h
    simp only [crtshGo] at h
    rcases hr : resp attempt with b | code | - | -
    case ok =>
      rcases b with - | - | - | es
      · rw [hr] at h; dsimp only at h; omega
      · rw [hr] at h
        by_cases hk : k = 0
        · rw [if_pos hk] at h; dsimp only at h; omega
        · rw [if_neg hk] at h
          by_cases hi : i = attempt
          · exact Or.inl (hi ▸ hr)
          · exact ih (attempt + 1) i (by omega) h
      · rw [hr] at h; dsimp only at h; omega
      · rw [hr] at h; dsimp only at h; omega
    case status =>
      rw [hr] at h
      dsimp only at h
      by_cases hs : retryableStatus code
      · rw [if_pos hs] at h
        by_cases hk : k = 0
        · rw [if_pos hk] at h; dsimp only at h; omega
        · rw [if_neg hk] at h
          dsimp only at h
          by_cases hi : i = attempt
          · subst hi
            exact Or.inr (by simp [specRetryableOutcome, hr, hs])
          · exact ih (attempt + 1) i (by omega) h
      · rw [if_neg hs] at h; dsimp only at h; omega
    case timeout =>
      rw [hr] at h
      dsimp only at h
      by_cases hk : k = 0
      · rw [if_pos hk] at h; dsimp only at h; omega
      · rw [if_neg hk] at h
        dsimp only at h
        by_cases hi : i = attempt
        · subst hi
          exact Or.inr (by simp [specRetryableOutcome, hr])
        · exact ih (attempt + 1) i (by omega) h
    case connError =>
      rw [hr] at h
      dsimp only at h
      by_cases hk : k = 0
      · rw [if_pos hk] at h; dsimp only at h; omega
      · rw [if_neg hk] at h
        dsimp only at h
        by_cases hi : i = attempt
        · subst hi
          exact Or.inr (by simp [specRetryableOutcome, hr])
        · exact ih (attempt + 1) i (by omega) h

theorem crtshGo_success (dom : String) (resp : Nat → CrtOutcome) (es : List CrtEntry) :
    ∀ remaining attempt i, attempt ≤ i →
      i < (crtshGo dom resp remaining attempt).attempts →
      resp i = .ok (.entries es) →
      (crtshGo dom resp remaining attempt).attempts = i + 1 ∧
      (crtshGo dom resp remaining attempt).result = processEntries dom es := by
  intro remaining
  induction remaining with
  | zero =>
    intro attempt i hle h hres
    simp only [crtshGo] at h
    omega
  | succ k ih =>
    intro attempt i hle h hres
    by_cases hi : i = attempt
    · subst hi
      simp [crtshGo, hres]
    · have hlt : attempt < i := lt_of_le_of_ne hle (Ne.symm hi)
      rcases hr : resp attempt with b | code | - | -
      · rcases b with - | - | - | es2
        · simp only [crtshGo, hr] at h
          omega
        · by_cases hk : k = 0
          · simp only [crtshGo, hr, if_pos hk] at h
            omega
          · simp only [crtshGo, hr, if_neg hk] at h ⊢
            exact ih (attempt + 1) i hlt h hres
        · simp only [crtshGo, hr] at h
          omega
        · simp only [crtshGo, hr] at h
          omega
      · by_cases hs : retryableStatus code
        · by_cases hk : k = 0
          · simp only [crtshGo, hr, if_pos hs, if_pos hk] at h
            omega
          · simp only [crtshGo, hr, if_pos hs, if_neg hk] at h ⊢
            exact ih (attempt + 1) i hlt h hres
        · simp only [crtshGo, hr, if_neg hs] at h
          omega
      · by_cases hk : k = 0
        · simp only [crtshGo, hr, if_pos hk] at h
          omega
        · simp only [crtshGo, hr, if_neg hk] at h ⊢
          exact ih (attempt + 1) i hlt h hres
      · by_cases hk : k = 0
        · simp only [crtshGo, hr, if_pos hk] at h
          omega
        · simp only [crtshGo, hr, if_neg hk] at h ⊢
          exact ih (attempt + 1) i hlt h hres

theorem crtshGo_terminalStatus (dom : String) (resp : Nat → CrtOutcome) (code : Nat)
    (hcode : retryableStatus code = false) :
    ∀ remaining attempt i, attempt ≤ i →
      i < (crtshGo dom resp remaining attempt).attempts →
      resp i = .status code →
      (crtshGo dom resp remaining attempt).attempts = i + 1 ∧
      (crtshGo dom resp remaining attempt).result = ∅ := by
  intro remaining
  induction remaining with
  | zero =>
    intro attempt i hle h hres
    simp only [crtshGo] at h
    omega
  | succ k ih =>
    intro attempt i hle h hres
    by_cases hi : i = attempt
    · subst hi
      simp [crtshGo, hres, hcode]
    · have hlt : attempt < i := lt_of_le_of_ne hle (Ne.symm hi)
      rcases hr : resp attempt with b | code2 | - | -
      · rcases b with - | - | - | es2
        · simp only [crtshGo, hr] at h
          omega
        · by_cases hk : k = 0
          · simp only [crtshGo, hr, if_pos hk] at h
            omega
          · simp only [crtshGo, hr, if_neg hk] at h ⊢
            exact ih (attempt + 1) i hlt h hres
        · simp only [crtshGo, hr] at h
          omega
        · simp only [crtshGo, hr] at h
          omega
      · by_cases hs : retryableStatus code2
        · by_cases hk : k = 0
          · simp only [crtshGo, hr, if_pos hs, if_pos hk] at h
            omega
          · simp only [crtshGo, hr, if_pos hs, if_neg hk] at h ⊢
            exact ih (attempt + 1) i hlt h hres
        · simp only [crtshGo, hr, if_neg hs] at h
          omega
      · by_cases hk : k = 0
        · simp only [crtshGo, hr, if_pos hk] at h
          omega
        · simp only [crtshGo, hr, if_neg hk] at h ⊢
          exact ih (attempt + 1) i hlt h hres
      · by_cases hk : k = 0
        · simp only [crtshGo, hr, if_pos hk] at h
          omega
        · simp only [crtshGo, hr, if_neg hk] at h ⊢
          exact ih (attempt + 1) i hlt h hres

theorem crtshGo_all_malformed (dom : String) (resp : Nat → CrtOutcome)
    (hresp : ∀ i, resp i = .ok .malformedJson) :
    ∀ remaining attempt, crtshGo dom resp remaining attempt = ⟨∅, attempt + remaining, []⟩ := by
  intro remaining
  induction remaining with
  | zero => intro attempt; simp [crtshGo]
  | succ k ih =>
    intro attempt
    by_cases hk : k = 0
    · subst hk
      simp [crtshGo, hresp attempt]
    · simp only [crtshGo, hresp attempt, if_neg hk]
      rw [ih (attempt + 1)]
      have harith : attempt + 1 + k = attempt + (k + 1) := by omega
      rw [harith]

theorem crtshGo_delays (dom : String) (resp : Nat → CrtOutcome) :
    ∀ remaining attempt,
      (crtshGo dom resp remaining attempt).delays =
        ((List.range' attempt ((crtshGo dom resp remaining attempt).attempts - 1 - attempt)).filter
          (fun i => specRetryableOutcome (resp i))).map (fun i => initialDelay * 2 ^ i) := by
  intro remaining
  induction remaining with
  | zero => intro attempt; simp [crtshGo]
  | succ k ih =>
    intro attempt
    rcases hr : resp attempt with b | code | - | -
    · rcases b with - | - | - | es
      · simp [crtshGo, hr]
      · by_cases hk : k = 0
        · simp [crtshGo, hr, hk]
        · have hb := crtshGo_bounds dom resp k (attempt + 1)
          simp only [crtshGo, hr, if_neg hk]
          rw [ih (attempt + 1)]
          rcases Nat.lt_or_ge (crtshGo dom resp k (attempt + 1)).attempts (attempt + 2) with hA | hA
          · have h1 : (crtshGo dom resp k (attempt + 1)).attempts - 1 - attempt = 0 := by omega
            have h2 : (crtshGo dom resp k (attempt + 1)).attempts - 1 - (attempt + 1) = 0 := by
              omega
            rw [h1, h2]
            simp
          · have h1 : (crtshGo dom resp k (attempt + 1)).attempts - 1 - attempt
                = ((crtshGo dom resp k (attempt + 1)).attempts - 1 - (attempt + 1)) + 1 := by
              omega
            rw [h1, List.range'_succ]
            simp [List.filter_cons, hr, specRetryableOutcome]
      · simp [crtshGo, hr]
      · simp [crtshGo, hr]
    · by_cases hs : retryableStatus code
      · by_cases hk : k = 0
        · simp [crtshGo, hr, hs, hk]
        · have hb := crtshGo_bounds dom resp k (attempt + 1)
          have hA : attempt + 2 ≤ (crtshGo dom resp k (attempt + 1)).attempts := hb.2.2 hk
          simp only [crtshGo, hr, if_pos hs, if_neg hk]
          rw [ih (attempt + 1)]
          have h1 : (crtshGo dom resp k (attempt + 1)).attempts - 1 - attempt
              = ((crtshGo dom resp k (attempt + 1)).attempts - 1 - (attempt + 1)) + 1 := by
            omega
          rw [h1, List.range'_succ]
          simp [List.filter_cons, hr, specRetryableOutcome, hs]
      · simp [crtshGo, hr, hs]
    · by_cases hk : k = 0
      · simp [crtshGo, hr, hk]
      · have hb := crtshGo_bounds dom resp k (attempt + 1)
        have hA : attempt + 2 ≤ (crtshGo dom resp k (attempt + 1)).attempts := hb.2.2 hk
        simp only [crtshGo, hr, if_neg hk]
        rw [ih (attempt + 1)]
        have h1 : (crtshGo dom resp k (attempt + 1)).attempts - 1 - attempt
            = ((crtshGo dom resp k (attempt + 1)).attempts - 1 - (attempt + 1)) + 1 := by
          omega
        rw [h1, List.range'_succ]
        simp [List.filter_cons, hr, specRetryableOutcome]
    · by_cases hk : k = 0
      · simp [crtshGo, hr, hk]
      · have hb := crtshGo_bounds dom resp k (attempt + 1)
        have hA : attempt + 2 ≤ (crtshGo dom resp k (attempt + 1)).attempts := hb.2.2 hk
        simp only [crtshGo, hr, if_neg hk]
        rw [ih (attempt + 1)]
        have h1 : (crtshGo dom resp k (attempt + 1)).attempts - 1 - attempt
            = ((crtshGo dom resp k (attempt + 1)).attempts - 1 - (attempt + 1)) + 1 := by
          omega
        rw [h1, List.range'_succ]
        simp [List.filter_cons, hr, specRetryableOutcome]

/-! ### Claim theorems -/

/-- C1, counterexample: with `max_retries = 3`, an HTTP 200 whose body fails
JSON decoding on the first attempt is followed by a second HTTP attempt
(one further retry), and a success on that retry returns a non-empty set —
refuting "zero further retries and an empty result set". -/
theorem C1_counterexample :
    (crtshRun "example.com"
      (fun n => if n = 0 then CrtOutcome.ok CrtBody.malformedJson
        else CrtOutcome.ok (CrtBody.entries [⟨"a.example.com"⟩])) 3).attempts = 2 ∧
    (crtshRun "example.com"
      (fun n => if n = 0 then CrtOutcome.ok CrtBody.malformedJson
        else CrtOutcome.ok (CrtBody.entries [⟨"a.example.com"⟩])) 3).result ≠ ∅ := by
  decide

/-- C1, amended: a malformed-JSON 200 body is retried immediately (with no
backoff sleep) on every attempt except the last; only on the final attempt
is the decode error terminal.  When every attempt returns malformed JSON,
the call makes exactly `max_retries` HTTP attempts, sleeps never, and
returns the empty set. -/
theorem C1_decode_error_retries (dom : String) (resp : Nat → CrtOutcome) (m : Nat)
    (h : ∀ i, resp i = CrtOutcome.ok CrtBody.malformedJson) :
    crtshRun dom resp m = ⟨∅, m, []⟩ := by
  have hall := crtshGo_all_malformed dom resp h m 0
  simpa [crtshRun] using hall

/-- C1, witness for the amended theorem at a concrete input. -/
theorem C1_decode_error_retries_witness :
    crtshRun "example.com" (fun _ => CrtOutcome.ok CrtBody.malformedJson) 3 = ⟨∅, 3, []⟩ :=
  C1_decode_error_retries "example.com" _ 3 (fun _ => rfl)

/-- C2, counterexample: when the output-write step raises, the diagnostic is
printed but the handler swallows the exception inside `main`, and the
process exit code is 0 — refuting "the process exits with a non-zero
status code". -/
theorem C2_counterexample :
    runScriptExitCode true = 0 ∧
    "[!] Error writing to file" ∈ (mainOutputStep true).2 := by
  decide

/-- C2, amended: if writing the output file fails, the failure is surfaced
to the user as a final diagnostic, but the surrounding handler swallows the
exception inside `main`, so the process exits 0 whether or not the write
raised. -/
theorem C2_write_failure_exit (writeFails : Bool) :
    (mainOutputStep writeFails).1 = none ∧
    (writeFails = true → "[!] Error writing to file" ∈ (mainOutputStep writeFails).2) ∧
    runScriptExitCode writeFails = 0 := by
  cases writeFails <;> simp [mainOutputStep, writeStepRaised, runScriptExitCode, scriptExitCode]

/-- C2, witness for the amended theorem at a concrete input. -/
theorem C2_write_failure_exit_witness :
    (mainOutputStep true).1 = none ∧
    "[!] Error writing to file" ∈ (mainOutputStep true).2 ∧
    runScriptExitCode true = 0 :=
  ⟨(C2_write_failure_exit true).1, (C2_write_failure_exit true).2.1 rfl,
    (C2_write_failure_exit true).2.2⟩

/-- C5: if the NS lookup fails (modelled by `nsResponse = none`, covering no
nameservers, timeout, and any resolution error), the DNS pipeline returns
the empty set at once, and its step trace shows no AXFR probe, no
TXT-wildcard check and no MX lookup. -/
theorem C5_ns_failure_hard_stop (dom : String) (env : DnsEnv)
    (h : env.nsResponse = none) :
    runDnsPipeline dom env = (∅, [DnsStep.nsLookup]) := by
  unfold runDnsPipeline
  rw [h]

/-- C5, witness at a concrete environment. -/
theorem C5_ns_failure_hard_stop_witness :
    runDnsPipeline "example.com"
      ⟨none, fun _ => AxfrOutcome.formError, some ["mx.example.com."]⟩ =
      (∅, [DnsStep.nsLookup]) :=
  C5_ns_failure_hard_stop "example.com" _ rfl

/-- C6: each failing single-nameserver zone-transfer outcome (refused or
malformed transfer, timeout, any other transport error) yields the empty
set rather than a propagated exception; merging it with a sibling's
successful set gives exactly the sibling's set, and in general every
probe's set survives into the merged AXFR union. -/
theorem C6_axfr_soft_failure (dom : String) (o : AxfrOutcome) (names : List String)
    (h : o = AxfrOutcome.formError ∨ o = AxfrOutcome.timeout ∨ o = AxfrOutcome.transportError) :
    attemptAxfr dom o = ∅ ∧
    mergeAxfr [attemptAxfr dom o, attemptAxfr dom (AxfrOutcome.success names)] =
      attemptAxfr dom (AxfrOutcome.success names) ∧
    ∀ sets : List (Finset String), ∀ S ∈ sets, S ⊆ mergeAxfr sets := by
  have hempty : attemptAxfr dom o = ∅ := by
    rcases h with rfl | rfl | rfl <;> rfl
  refine ⟨hempty, ?_, fun sets S hS => mergeAxfr_subset hS⟩
  rw [hempty]
  simp [mergeAxfr]

/-- C6, witness at a concrete refused transfer beside a successful one. -/
theorem C6_axfr_soft_failure_witness :
    attemptAxfr "example.com" AxfrOutcome.formError = ∅ ∧
    mergeAxfr [attemptAxfr "example.com" AxfrOutcome.formError,
      attemptAxfr "example.com" (AxfrOutcome.success ["x.example.com."])] =
      attemptAxfr "example.com" (AxfrOutcome.success ["x.example.com."]) ∧
    ∀ sets : List (Finset String), ∀ S ∈ sets, S ⊆ mergeAxfr sets :=
  C6_axfr_soft_failure "example.com" AxfrOutcome.formError ["x.example.com."] (Or.inl rfl)

/-- C7: once the NS lookup succeeds, a non-empty merged AXFR union makes the
pipeline return exactly that union with no TXT-wildcard or MX step in its
trace; the two fallback steps appear exactly when the merged AXFR union is
empty. -/
theorem C7_axfr_skips_fallback (dom : String) (env : DnsEnv) (raw : List String)
    (h : env.nsResponse = some raw) :
    (mergeAxfr ((nsNormalize raw).map fun ns => attemptAxfr dom (env.axfrOutcome ns)) ≠ ∅ →
      runDnsPipeline dom env =
        (mergeAxfr ((nsNormalize raw).map fun ns => attemptAxfr dom (env.axfrOutcome ns)),
          DnsStep.nsLookup :: (nsNormalize raw).map DnsStep.axfrProbe)) ∧
    (mergeAxfr ((nsNormalize raw).map fun ns => attemptAxfr dom (env.axfrOutcome ns)) = ∅ →
      (runDnsPipeline dom env).2 =
        (DnsStep.nsLookup :: (nsNormalize raw).map DnsStep.axfrProbe)
          ++ [DnsStep.txtWildcardCheck, DnsStep.mxLookup]) := by
  unfold runDnsPipeline
  rw [h]
  dsimp only
  constructor
  · intro hne
    rw [if_neg hne]
  · intro he
    rw [if_pos he]

/-- C7, witness at a concrete environment whose single nameserver answers
the transfer. -/
theorem C7_axfr_skips_fallback_witness :
    runDnsPipeline "example.com"
      ⟨some ["ns1.example.com."], fun _ => AxfrOutcome.success ["x.example.com"],
        some ["mx.example.com."]⟩ =
      (mergeAxfr ((nsNormalize ["ns1.example.com."]).map fun ns =>
        attemptAxfr "example.com"
          ((fun _ => AxfrOutcome.success ["x.example.com"]) ns)),
        DnsStep.nsLookup :: (nsNormalize ["ns1.example.com."]).map DnsStep.axfrProbe) :=
  (C7_axfr_skips_fallback "example.com" _ ["ns1.example.com."] rfl).1 (by decide)

/-- C9: the final result handed to the output step is exactly the
deduplicated union of the two pipelines' sets — merging is symmetric in the
two tasks (so completion order is irrelevant), loses nothing and duplicates
nothing, is idempotent, and on the sets `{a, b}` and `{b, c}` produces
exactly `[a, b, c]`. -/
theorem C9_union_merge (A B : Finset String) :
    mergedSorted A B = mergedSorted B A ∧
    (∀ x, x ∈ mergedSorted A B ↔ x ∈ A ∨ x ∈ B) ∧
    (mergedSorted A B).Nodup ∧
    mergedSorted A A = sortedList A ∧
    mergedSorted {"a", "b"} {"b", "c"} = ["a", "b", "c"] := by
  refine ⟨?_, ?_, nodup_sortedList _, ?_, by decide⟩
  · unfold mergedSorted
    rw [Finset.union_comm]
  · intro x
    rw [mergedSorted, mem_sortedList, Finset.mem_union]
  · unfold mergedSorted
    rw [Finset.union_self]

/-- C8, counterexample: with `max_retries = 3` and every response an HTTP
200 carrying a malformed JSON body, three HTTP attempts are made — so the
loop retried after outcomes that are not HTTP 500/502/503/504/429, not a
timeout and not a connection error, refuting "retries only on" that list. -/
theorem C8_counterexample :
    (crtshRun "example.com" (fun _ => CrtOutcome.ok CrtBody.malformedJson) 3).attempts = 3 ∧
    specRetryableOutcome (CrtOutcome.ok CrtBody.malformedJson) = false := by
  decide

/-- C8, amended: the retriever makes at most `max_retries` attempts; an
attempt is followed by another only when its outcome was a retryable
status (500/502/503/504/429), a timeout, a connection error, or — the
amendment — an HTTP 200 with malformed JSON; the backoff sleeps are exactly
`initial_delay * 2 ^ attempt` for each non-final attempt with a retryable
status / timeout / connection error, in order (none for malformed-JSON
retries); a successful parse ends the loop immediately, returning the
parsed set; and a non-retryable non-200 status ends the loop immediately
with the empty set. -/
theorem C8_retry_policy (dom : String) (resp : Nat → CrtOutcome) (m : Nat) :
    (crtshRun dom resp m).attempts ≤ m ∧
    (∀ i, i + 1 < (crtshRun dom resp m).attempts →
      resp i = CrtOutcome.ok CrtBody.malformedJson ∨ specRetryableOutcome (resp i) = true) ∧
    ((crtshRun dom resp m).delays =
      ((List.range' 0 ((crtshRun dom resp m).attempts - 1)).filter
        (fun i => specRetryableOutcome (resp i))).map (fun i => initialDelay * 2 ^ i)) ∧
    (∀ i es, i < (crtshRun dom resp m).attempts → resp i = CrtOutcome.ok (CrtBody.entries es) →
      (crtshRun dom resp m).attempts = i + 1 ∧
      (crtshRun dom resp m).result = processEntries dom es) ∧
    (∀ i code, i < (crtshRun dom resp m).attempts → resp i = CrtOutcome.status code →
      retryableStatus code = false →
      (crtshRun dom resp m).attempts = i + 1 ∧ (crtshRun dom resp m).result = ∅) := by
  refine ⟨?_, ?_, ?_, ?_, ?_⟩
  · have hb := crtshGo_bounds dom resp m 0
    simpa [crtshRun] using hb.2.1
  · intro i hi
    exact crtshGo_continue dom resp m 0 i (Nat.zero_le i) hi
  · have hd := crtshGo_delays dom resp m 0
    simpa [crtshRun] using hd
  · intro i es hi hres
    exact crtshGo_success dom resp es m 0 i (Nat.zero_le i) hi hres
  · intro i code hi hres hcode
    exact crtshGo_terminalStatus dom resp code hcode m 0 i (Nat.zero_le i) hi hres

/-- C8, witness: a 503 on the first attempt is retried after a 2-time-unit
sleep, and the successful parse on the second attempt ends the call with
the parsed set after exactly 2 attempts. -/
theorem C8_retry_policy_witness :
    (crtshRun "example.com"
      (fun n => if n = 0 then CrtOutcome.status 503
        else CrtOutcome.ok (CrtBody.entries [⟨"a.example.com"⟩])) 3).attempts = 2 ∧
    (crtshRun "example.com"
      (fun n => if n = 0 then CrtOutcome.status 503
        else CrtOutcome.ok (CrtBody.entries [⟨"a.example.com"⟩])) 3).result =
      processEntries "example.com" [⟨"a.example.com"⟩] :=
  (C8_retry_policy "example.com"
    (fun n => if n = 0 then CrtOutcome.status 503
      else CrtOutcome.ok (CrtBody.entries [⟨"a.example.com"⟩])) 3).2.2.2.1
    1 [⟨"a.example.com"⟩] (by decide) rfl

theorem cleanName_not_upper {raw : String} {c : Char}
    (h : c ∈ (cleanName raw).data) : c.isUpper = false := by
  unfold cleanName at h
  dsimp only at h
  by_cases hp : pyStartsWith (pyLower (pyStrip raw)) "*." = true
  · rw [if_pos hp] at h
    exact pyLower_not_upper (List.mem_of_mem_drop h)
  · rw [if_neg hp] at h
    exact pyLower_not_upper h

/-- C3, counterexample: the crt.sh path strips only one leading `"*."`, so
the raw candidate `"*.*.example.com"` puts `"*.example.com"` — a name that
still starts with the wildcard marker — into the result set; and the AXFR
path performs no lowercasing, so the zone name `"WWW.example.com."` puts
the mixed-case `"WWW.example.com"` into the result set. -/
theorem C3_counterexample :
    "*.example.com" ∈ processEntries "example.com" [⟨"*.*.example.com"⟩] ∧
    pyStartsWith "*.example.com" "*." = true ∧
    "WWW.example.com" ∈ attemptAxfr "example.com"
      (AxfrOutcome.success ["WWW.example.com."]) ∧
    'W' ∈ "WWW.example.com".data ∧ Char.isUpper 'W' = true := by
  decide

/-- C3, amended: names entering the result set from the crt.sh path and the
MX fallback are entirely lowercase, end in `"."` followed by the lowercased
domain, and never equal the lowercased domain — but only one leading
`"*."` is stripped on the crt.sh path, so a doubled wildcard marker
survives; names from the AXFR path are only required to end in `"."`
followed by the domain as given and to differ from it — they are neither
lowercased nor wildcard-stripped. -/
theorem C3_name_invariants :
    (∀ dom : String, ∀ es : List CrtEntry, ∀ x ∈ processEntries dom es,
      (∀ c ∈ x.data, c.isUpper = false) ∧
      pyEndsWith x ("." ++ pyLower dom) = true ∧ x ≠ pyLower dom) ∧
    (∀ dom : String, ∀ ex : List String, ∀ x ∈ mxHosts dom ex,
      (∀ c ∈ x.data, c.isUpper = false) ∧
      pyEndsWith x ("." ++ pyLower dom) = true ∧ x ≠ pyLower dom) ∧
    (∀ dom : String, ∀ o : AxfrOutcome, ∀ x ∈ attemptAxfr dom o,
      pyEndsWith x ("." ++ dom) = true ∧ x ≠ dom) := by
  refine ⟨?_, ?_, ?_⟩
  · intro dom es x hx
    simp only [processEntries, List.mem_toFinset, List.mem_filter, List.mem_map] at hx
    rcases hx with ⟨⟨raw, hraw, hclean⟩, hkeep⟩
    simp only [keepName, Bool.and_eq_true, bne_iff_ne, Ne] at hkeep
    refine ⟨?_, hkeep.1.2, hkeep.2⟩
    intro c hc
    rw [← hclean] at hc
    exact cleanName_not_upper hc
  · intro dom ex x hx
    simp only [mxHosts, List.mem_toFinset, List.mem_filter, List.mem_map] at hx
    rcases hx with ⟨⟨raw, hraw, hlow⟩, hend⟩
    refine ⟨?_, hend, pyEndsWith_ne hend⟩
    intro c hc
    rw [← hlow] at hc
    exact pyLower_not_upper hc
  · intro dom o x hx
    cases o with
    | success names =>
      simp only [attemptAxfr, List.mem_toFinset, List.mem_filter, List.mem_map,
        Bool.and_eq_true, bne_iff_ne, Ne] at hx
      exact ⟨hx.2.1, hx.2.2⟩
    | formError => simp [attemptAxfr] at hx
    | timeout => simp [attemptAxfr] at hx
    | transportError => simp [attemptAxfr] at hx

/-- C3, witness for the amended theorem at concrete inputs on all three
paths. -/
theorem C3_name_invariants_witness :
    ((∀ c ∈ "b.example.com".data, c.isUpper = false) ∧
      pyEndsWith "b.example.com" ("." ++ pyLower "example.com") = true ∧
      "b.example.com" ≠ pyLower "example.com") ∧
    ((∀ c ∈ "mx.example.com".data, c.isUpper = false) ∧
      pyEndsWith "mx.example.com" ("." ++ pyLower "example.com") = true ∧
      "mx.example.com" ≠ pyLower "example.com") ∧
    (pyEndsWith "x.example.com" ("." ++ "example.com") = true ∧
      "x.example.com" ≠ "example.com") :=
  ⟨C3_name_invariants.1 "example.com" [⟨"b.example.com"⟩] "b.example.com" (by decide),
    C3_name_invariants.2.1 "example.com" ["MX.example.com."] "mx.example.com" (by decide),
    C3_name_invariants.2.2 "example.com" (AxfrOutcome.success ["x.example.com."])
      "x.example.com" (by decide)⟩

/-- C10, counterexample: trailing-dot removal is not applied *only* to
NS-record targets and MX exchange hostnames — the AXFR path also
`rstrip('.')`s every reconstructed zone-node name (line 152), so the zone
name `"www.example.com."` enters the AXFR result set dot-stripped. -/
theorem C10_counterexample :
    attemptAxfr "example.com" (AxfrOutcome.success ["www.example.com."]) =
      {"www.example.com"} ∧
    pyRstripChar "www.example.com." '.' = "www.example.com" := by
  decide

/-- C10, amended: a crt.sh candidate that still carries a trailing label
separator after cleaning fails the acceptance test and is excluded
entirely (never dot-stripped), so no crt.sh result ends in a dot; while
trailing-dot removal is applied to NS-record targets, MX exchange
hostnames, *and* AXFR zone-node names, whose results therefore never end
in a dot either. -/
theorem C10_trailing_dot (dom : String) (hne : dom.data ≠ [])
    (hd : dom.data.getLast? ≠ some '.') :
    (∀ c : String, c.data.getLast? = some '.' → keepName dom c = false) ∧
    (∀ es : List CrtEntry, ∀ x ∈ processEntries dom es, x.data.getLast? ≠ some '.') ∧
    (∀ raw : List String, ∀ s ∈ nsNormalize raw, s.data.getLast? ≠ some '.') ∧
    (∀ ex : List String, ∀ x ∈ mxHosts dom ex, x.data.getLast? ≠ some '.') ∧
    (∀ o : AxfrOutcome, ∀ x ∈ attemptAxfr dom o, x.data.getLast? ≠ some '.') := by
  have hlowd : (pyLower dom).data.getLast? ≠ some '.' := pyLower_getLast_ne_dot hd
  have hlowne : (pyLower dom).data ≠ [] := by
    rw [pyLower_data]
    simpa using hne
  have hsufdata : ("." ++ pyLower dom).data = '.' :: (pyLower dom).data := by
    rw [string_append_data]
    rfl
  have hkeepF : ∀ c : String, c.data.getLast? = some '.' → keepName dom c = false := by
    intro c hc
    have hE : pyEndsWith c ("." ++ pyLower dom) = false := by
      by_contra hT
      rw [Bool.not_eq_false] at hT
      have hlast := pyEndsWith_getLast hT (by rw [hsufdata]; exact List.cons_ne_nil _ _)
      rw [hsufdata] at hlast
      have hcons : ('.' :: (pyLower dom).data).getLast? = (pyLower dom).data.getLast? := by
        have := List.getLast?_append_of_ne_nil ['.'] hlowne
        simpa using this
      rw [hcons] at hlast
      exact hlowd (hlast ▸ hc)
    simp [keepName, hE]
  refine ⟨hkeepF, ?_, ?_, ?_, ?_⟩
  · intro es x hx hlast
    simp only [processEntries, List.mem_toFinset, List.mem_filter] at hx
    rw [hkeepF x hlast] at hx
    exact Bool.false_ne_true hx.2
  · intro raw s hs
    simp only [nsNormalize, List.mem_map] at hs
    rcases hs with ⟨r, -, rfl⟩
    exact pyRstripChar_getLast r '.'
  · intro ex x hx
    simp only [mxHosts, List.mem_toFinset, List.mem_filter, List.mem_map] at hx
    rcases hx with ⟨⟨r, -, rfl⟩, -⟩
    exact pyLower_getLast_ne_dot (pyRstripChar_getLast r '.')
  · intro o x hx
    cases o with
    | success names =>
      simp only [attemptAxfr, List.mem_toFinset, List.mem_filter, List.mem_map] at hx
      rcases hx with ⟨⟨n, -, rfl⟩, -⟩
      exact pyRstripChar_getLast n '.'
    | formError => simp [attemptAxfr] at hx
    | timeout => simp [attemptAxfr] at hx
    | transportError => simp [attemptAxfr] at hx

/-- C10, witness: at the concrete domain `"example.com"`, the dotted
crt.sh candidate `"host.example.com."` fails the acceptance test. -/
theorem C10_trailing_dot_witness :
    keepName "example.com" "host.example.com." = false :=
  (C10_trailing_dot "example.com" (by decide) (by decide)).1
    "host.example.com." (by decide)

theorem splitLinesAux_append (s : List Char) (rest acc : List Char) (h : '\n' ∉ s) :
    splitLinesAux (s ++ '\n' :: rest) acc = (acc.reverse ++ s) :: splitLinesAux rest [] := by
  induction s generalizing acc with
  | nil => simp [splitLinesAux]
  | cons c cs ih =>
    have hc : ¬c = '\n' := fun hEq => h (hEq ▸ List.mem_cons_self c cs)
    simp only [List.cons_append, splitLinesAux, if_neg hc, List.append_eq]
    rw [ih _ (fun hm => h (List.mem_cons_of_mem c hm))]
    simp

theorem splitLines_joinLines (l : List String) (h : ∀ s ∈ l, '\n' ∉ s.data) :
    splitLinesAux ((l.map fun s => s.data ++ ['\n']).flatten) [] = l.map String.data := by
  induction l with
  | nil => simp [splitLinesAux]
  | cons s rest ih =>
    simp only [List.map_cons, List.flatten_cons]
    have hassoc : s.data ++ ['\n'] ++ (rest.map fun t => t.data ++ ['\n']).flatten
        = s.data ++ '\n' :: (rest.map fun t => t.data ++ ['\n']).flatten := by
      simp
    rw [hassoc, splitLinesAux_append _ _ _ (h s (List.mem_cons_self s rest))]
    rw [ih (fun t ht => h t (List.mem_cons_of_mem s ht))]
    simp

theorem fileLines_eq (l : List String) (hne : l ≠ []) (h : ∀ s ∈ l, '\n' ∉ s.data) :
    fileLines l = l := by
  unfold fileLines fileContent pySplitLines
  rw [if_neg (by simpa [List.isEmpty_iff] using hne)]
  show (splitLinesAux ((l.map fun s => s.data ++ ['\n']).flatten) []).map
    (fun d => (⟨d⟩ : String)) = l
  rw [splitLines_joinLines l h, List.map_map]
  have hid : ((fun d => (⟨d⟩ : String)) ∘ String.data) = id := funext fun s => rfl
  rw [hid, List.map_id]

/-- C4: an empty merged union produces a file whose content splits into
exactly the one placeholder line; a non-empty union of `N` names (each
non-empty and newline-free, as every name placed by the pipelines is)
produces content splitting into exactly `N` lines — the sorted union
itself — in ascending lexicographic order, with no duplicate and no blank
line. -/
theorem C4_output_file (A B : Finset String)
    (h : ∀ s ∈ A ∪ B, s.data ≠ [] ∧ '\n' ∉ s.data) :
    (A ∪ B = ∅ → fileLines (mergedSorted A B) = [placeholderLine]) ∧
    (A ∪ B ≠ ∅ →
      fileLines (mergedSorted A B) = mergedSorted A B ∧
      (fileLines (mergedSorted A B)).length = (A ∪ B).card ∧
      (fileLines (mergedSorted A B)).Sorted lexLe ∧
      (fileLines (mergedSorted A B)).Nodup ∧
      ∀ s ∈ fileLines (mergedSorted A B), s ≠ "") := by
  constructor
  · intro hE
    have hnil : mergedSorted A B = [] := by
      rw [mergedSorted, sortedList_eq_nil_iff]
      exact hE
    rw [hnil]
    decide
  · intro hne
    have hlne : mergedSorted A B ≠ [] := by
      rw [Ne, mergedSorted, sortedList_eq_nil_iff]
      exact hne
    have hmem : ∀ s ∈ mergedSorted A B, s ∈ A ∪ B :=
      fun s hs => (mem_sortedList _ s).mp hs
    have heq : fileLines (mergedSorted A B) = mergedSorted A B :=
      fileLines_eq _ hlne (fun s hs => (h s (hmem s hs)).2)
    refine ⟨heq, ?_, ?_, ?_, ?_⟩ <;> rw [heq]
    · exact length_sortedList _
    · exact sortedList_sorted _
    · exact nodup_sortedList _
    · intro s hs hE
      have hd := (h s (hmem s hs)).1
      rw [hE] at hd
      exact hd rfl

/-- C4, witness at two concrete two-element result sets sharing a name. -/
theorem C4_output_file_witness :
    (({"b.example.com", "a.example.com"} : Finset String) ∪ {"a.example.com"} = ∅ →
      fileLines (mergedSorted {"b.example.com", "a.example.com"} {"a.example.com"}) =
        [placeholderLine]) ∧
    (({"b.example.com", "a.example.com"} : Finset String) ∪ {"a.example.com"} ≠ ∅ →
      fileLines (mergedSorted {"b.example.com", "a.example.com"} {"a.example.com"}) =
        mergedSorted {"b.example.com", "a.example.com"} {"a.example.com"} ∧
      (fileLines (mergedSorted {"b.example.com", "a.example.com"} {"a.example.com"})).length =
        (({"b.example.com", "a.example.com"} : Finset String) ∪ {"a.example.com"}).card ∧
      (fileLines (mergedSorted {"b.example.com", "a.example.com"} {"a.example.com"})).Sorted
        lexLe ∧
      (fileLines (mergedSorted {"b.example.com", "a.example.com"} {"a.example.com"})).Nodup ∧
      ∀ s ∈ fileLines (mergedSorted {"b.example.com", "a.example.com"} {"a.example.com"}),
        s ≠ "") :=
  C4_output_file {"b.example.com", "a.example.com"} {"a.example.com"} (by decide)

end SubdomainDiscovery
